import Mathlib

/-!
Verification of the digital-normalization control pipeline of
`scripts/normalize-by-median.py` (khmer).

The Python source is shallowly embedded: the `Normalizer` class becomes a
step function on an explicit state, the `WithDiagnostics` generator becomes a
function producing the list of emitted log events alongside the re-yielded
records, `CatchIOErrors` and the `main` file loop become `runFiles`, and the
fallible pieces (the machine-readable report writes) return `Except` values.
The khmer counting table (`AbundanceOracle`) and the `broken_paired_reader`
live outside this repository's sources, so the normalizer is parametrised by
an abstract oracle interface and consumes reader output directly; a concrete
counting table modelled from the spec is provided for concrete runs.
-/

set_option maxHeartbeats 1000000

/-- One sequencing read: identifier and nucleotide sequence (spec §3 Record).
The quality string plays no role in any behaviour modelled here. -/
structure Record where
  name : String
  sequence : List Char
deriving DecidableEq

/-- One tuple `(is_paired, read0, read1)` as yielded by `broken_paired_reader`
(the leading numeric index of the Python tuple is unused by the normalizer and
omitted).  A pair has `is_paired = true` and `read1 = some _`; a single read
has `is_paired = false` and `read1 = none`. -/
structure RawUnit where
  is_paired : Bool
  read0 : Record
  read1 : Option Record
deriving DecidableEq

/-- `record.sequence.replace('N', 'A')` (source line 115/123): every ambiguity
symbol `N` is replaced by `A`; `replace` with a one-character pattern is a
character map. -/
def replaceNA (s : List Char) : List Char :=
  s.map (fun c => if c = 'N' then 'A' else c)

/-- The abundance-oracle interface consumed by the normalizer (spec §6):
`get_median_count` returns a triple whose first component is the median
k-mer abundance, and `consume` updates the counts. -/
structure OracleOps (O : Type) where
  get_median_count : O → List Char → Nat × Nat × Nat
  consume : O → List Char → O

/-- The `Normalizer` object state (source lines 90-95): the counting table,
the desired-coverage cutoff, and the run counters `total` and `discarded`. -/
structure Normalizer (O : Type) where
  htable : O
  desired_coverage : Nat
  total : Nat
  discarded : Nat
deriving DecidableEq

/-- The `batch` list built at source lines 109-112: `read0`, then `read1`
when present. -/
def unitBatch (u : RawUnit) : List Record :=
  u.read0 :: u.read1.toList

/-- The amount added to `total` at source lines 104-107: one for the unit,
one more when `is_paired`. -/
def unitTotalInc (u : RawUnit) : Nat :=
  if u.is_paired then 2 else 1

/-- The `passed_filter` flag after the query loop of source lines 114-119:
true iff some record of the batch has median abundance (queried on the
`N`-substituted sequence against the current table) strictly below the
cutoff. -/
def unitPassed (ops : OracleOps O) (h : O) (cutoff : Nat) (u : RawUnit) : Bool :=
  (unitBatch u).any fun r =>
    decide ((ops.get_median_count h (replaceNA r.sequence)).1 < cutoff)

/-- Consuming every record of a batch into the table, in batch order
(source lines 122-124, and the consume part of the kept branch). -/
def consumeBatch (ops : OracleOps O) (h : O) (rs : List Record) : O :=
  rs.foldl (fun h r => ops.consume h (replaceNA r.sequence)) h

/-- One iteration of `Normalizer.__call__` (source lines 101-127) under full
consumption of the generator: the updated normalizer state and the records
yielded for this unit. -/
def normStep (ops : OracleOps O) (n : Normalizer O) (u : RawUnit) :
    Normalizer O × List Record :=
  if unitPassed ops n.htable n.desired_coverage u then
    (⟨consumeBatch ops n.htable (unitBatch u), n.desired_coverage,
      n.total + unitTotalInc u, n.discarded⟩, unitBatch u)
  else
    (⟨n.htable, n.desired_coverage,
      n.total + unitTotalInc u, n.discarded + (unitBatch u).length⟩, [])

/-- `Normalizer.__call__` over a whole reader stream: final state and the
concatenation of all yielded records, in order. -/
def normRun (ops : OracleOps O) : Normalizer O → List RawUnit →
    Normalizer O × List Record
  | n, [] => (n, [])
  | n, u :: us =>
    let p := normStep ops n u
    let q := normRun ops p.1 us
    (q.1, p.2 ++ q.2)

/-- Errors the Python runtime can raise in the modelled code paths. -/
inductive PyError where
  | nameError (n : String)
  | zeroDivisionError
deriving DecidableEq

/-- Messages printed to the log stream (stderr) by the modelled code paths. -/
inductive LogEvent where
  | progress (kept total : Nat) (perc : Int) (filename : String)
  | fileDone (filename : String) (kept total : Nat) (perc : Int)
  | fileSkipped (filename : String)
  | ioErrorNote
  | failedOn (filename : String)
  | exiting
  | skipWarning
deriving DecidableEq

/-- The displayed kept-percentage `int(100. - discarded / float(total) * 100.)`
of source lines 55-56 and 74-75, with the float arithmetic modelled exactly:
for a nonzero `total` the value `100 - discarded / total * 100` equals the
rational `(100 * total - 100 * discarded) / total`, and `int()` truncates it
toward zero, which is Lean's `Int` division.  Only evaluated on paths where
`total` is nonzero. -/
def pct (discarded total : Nat) : Int :=
  (100 * (total : Int) - 100 * (discarded : Int)) / (total : Int)

/-- Python true division, raising `ZeroDivisionError` on a zero divisor. -/
def pyDiv (a b : Rat) : Except PyError Rat :=
  if b = 0 then Except.error PyError.zeroDivisionError else Except.ok (a / b)

/-- The names bound at the periodic-report site inside `WithDiagnostics`
(parameters `ifilename`, `norm`, `reader`, `fp` and locals `index`,
`record`); the module has no global `total` or `discarded`. -/
def boundNamesAtReportSite : List String :=
  ["ifilename", "norm", "reader", "fp", "index", "record"]

/-- Python name resolution for one bare name at the periodic-report site. -/
def resolveName (x : String) : Except PyError String :=
  if x ∈ boundNamesAtReportSite then Except.ok x
  else Except.error (PyError.nameError x)

/-- The periodic machine-readable report write of source lines 62-63:
`print(total + " " + total - discarded + " " + 1. - (discarded / float(total)), file=fp)`.
Python evaluates the expression left to right and looks up the bare name
`total` first; it is unbound, so a `NameError` is raised and the rest of the
expression is never evaluated (the `ok` continuation is unreachable). -/
def periodicReportWrite : Except PyError String :=
  (resolveName "total").bind fun _ =>
  (resolveName "discarded").bind fun _ =>
  Except.ok "report"

/-- The end-of-file machine-readable report write of source lines 78-83: the
third field is `1. - (norm.discarded / float(norm.total))`, computed with an
unconditional division by `total`. -/
def endOfFileReportWrite (total discarded : Nat) :
    Except PyError (Nat × Nat × Rat) :=
  (pyDiv (discarded : Rat) (total : Rat)).map
    fun q => (total, total - discarded, 1 - q)

/-- The test `index > 0 and index % 100000 == 0` of source line 51, where
`index` is the `enumerate` index over the records yielded by the
normalizer. -/
def progressTrigger (i : Nat) : Bool :=
  decide (0 < i ∧ i % 100000 = 0)

/-- The end-of-file log message of source lines 69-76: a skipped-empty notice
when the run-cumulative `norm.total` is zero, otherwise the done-with-file
summary computed from the run-cumulative counters. -/
def summaryEvent (fname : String) (total discarded : Nat) : LogEvent :=
  if total = 0 then LogEvent.fileSkipped fname
  else LogEvent.fileDone fname (total - discarded) total (pct discarded total)

/-- Result of streaming one kept batch through the yield loop of source lines
122-125 as observed by `WithDiagnostics`. -/
structure EmitResult (O : Type) where
  htable : O
  idx : Nat
  yielded : List Record
  events : List LogEvent
  err : Option PyError
deriving DecidableEq

/-- The kept-branch yield loop (source lines 122-125) interleaved with the
per-record body of `WithDiagnostics` (source lines 49-66): each record is
consumed into the table, then the `enumerate` index is checked; at a
triggering index the progress lines are printed and, when a report stream is
configured, the report write raises and aborts the stream (the triggering
record is not re-yielded downstream). -/
def emitBatch (ops : OracleOps O) (fp : Bool) (fname : String)
    (total discarded : Nat) : O → Nat → List Record → EmitResult O
  | h, _idx, [] => ⟨h, _idx, [], [], none⟩
  | h, idx, r :: rs =>
    let h' := ops.consume h (replaceNA r.sequence)
    if progressTrigger idx then
      let ev := LogEvent.progress (total - discarded) total
        (pct discarded total) fname
      if fp then
        match periodicReportWrite with
        | Except.error e => ⟨h', idx, [], [ev], some e⟩
        | Except.ok _ =>
          let rest := emitBatch ops fp fname total discarded h' (idx + 1) rs
          ⟨rest.htable, rest.idx, r :: rest.yielded, ev :: rest.events, rest.err⟩
      else
        let rest := emitBatch ops fp fname total discarded h' (idx + 1) rs
        ⟨rest.htable, rest.idx, r :: rest.yielded, ev :: rest.events, rest.err⟩
    else
      let rest := emitBatch ops fp fname total discarded h' (idx + 1) rs
      ⟨rest.htable, rest.idx, r :: rest.yielded, rest.events, rest.err⟩

/-- Result of streaming some units through the normalizer inside
`WithDiagnostics`. -/
structure PipeResult (O : Type) where
  norm : Normalizer O
  idx : Nat
  yielded : List Record
  events : List LogEvent
  err : Option PyError
deriving DecidableEq

/-- One unit of `Normalizer.__call__` as consumed through
`WithDiagnostics`: counters are updated and the keep decision made exactly as
in `normStep`, but the kept batch is streamed record by record through
`emitBatch`. -/
def processUnit (ops : OracleOps O) (fp : Bool) (fname : String)
    (n : Normalizer O) (idx : Nat) (u : RawUnit) : PipeResult O :=
  let total' := n.total + unitTotalInc u
  if unitPassed ops n.htable n.desired_coverage u then
    let e := emitBatch ops fp fname total' n.discarded n.htable idx (unitBatch u)
    ⟨⟨e.htable, n.desired_coverage, total', n.discarded⟩,
      e.idx, e.yielded, e.events, e.err⟩
  else
    ⟨⟨n.htable, n.desired_coverage, total', n.discarded + (unitBatch u).length⟩,
      idx, [], [], none⟩

/-- The whole per-read loop of `WithDiagnostics` over a unit stream; an
uncaught error raised at a diagnostic point aborts the remainder of the
stream. -/
def processUnits (ops : OracleOps O) (fp : Bool) (fname : String) :
    Normalizer O → Nat → List RawUnit → PipeResult O
  | n, idx, [] => ⟨n, idx, [], [], none⟩
  | n, idx, u :: us =>
    let p := processUnit ops fp fname n idx u
    match p.err with
    | some e => ⟨p.norm, p.idx, p.yielded, p.events, some e⟩
    | none =>
      let q := processUnits ops fp fname p.norm p.idx us
      ⟨q.norm, q.idx, p.yielded ++ q.yielded, p.events ++ q.events, q.err⟩

/-- Result of `WithDiagnostics` over one whole input file. -/
structure FileResult (O : Type) where
  norm : Normalizer O
  yielded : List Record
  events : List LogEvent
  err : Option PyError
deriving DecidableEq

/-- `WithDiagnostics(ifilename, norm, reader, fp)` over one file (source
lines 40-83): the per-read loop, then the end-of-file log message (lines
69-76), then, when a report stream is configured, the end-of-file report
write (lines 78-83), whose division by `float(norm.total)` raises when the
cumulative total is zero. -/
def withDiagnosticsFile (ops : OracleOps O) (fp : Bool) (fname : String)
    (n : Normalizer O) (units : List RawUnit) : FileResult O :=
  let p := processUnits ops fp fname n 0 units
  match p.err with
  | some e => ⟨p.norm, p.yielded, p.events, some e⟩
  | none =>
    let ev := summaryEvent fname p.norm.total p.norm.discarded
    if fp then
      match endOfFileReportWrite p.norm.total p.norm.discarded with
      | Except.error e => ⟨p.norm, p.yielded, p.events ++ [ev], some e⟩
      | Except.ok _ => ⟨p.norm, p.yielded, p.events ++ [ev], none⟩
    else ⟨p.norm, p.yielded, p.events ++ [ev], none⟩

/-- One entry of the `files` list built at source lines 284-290, together
with the behaviour of its raw record stream: the units the reader produces,
and whether the stream then raises an `IOError`/`ValueError` (a format or
I/O fault) instead of ending normally. -/
structure FileTask where
  filename : String
  units : List RawUnit
  readerError : Bool
deriving DecidableEq

/-- How the modelled run ends. -/
inductive Termination where
  | completed
  | exited (code : Nat)
  | crashed (e : PyError)
deriving DecidableEq

/-- Observable outcome of the file loop of `main` (source lines 302-322). -/
structure RunResult (O : Type) where
  norm : Normalizer O
  files : List (String × List LogEvent × List Record)
  removed : List String
  corrupt : List String
  term : Termination
deriving DecidableEq

/-- The file loop of `main` (source lines 302-322) wrapped per file in
`CatchIOErrors` (source lines 130-148).  A clean file runs
`WithDiagnostics` to completion.  A reader fault first consumes the units
produced before the fault, then hits the `except (IOError, ValueError)`
branch: the error lines are printed, the per-file output is removed unless a
single shared output destination is in use, and the run either exits with
status 1 (`force` off) or records the filename as corrupt and proceeds to the
next file with the normalizer state carried forward (`force` on).  An
uncaught error from the diagnostics (NameError, ZeroDivisionError) is not in
the caught classes and crashes the run. -/
def runFiles (ops : OracleOps O) (fp single_out force : Bool) :
    Normalizer O → List FileTask → RunResult O
  | n, [] => ⟨n, [], [], [], Termination.completed⟩
  | n, t :: ts =>
    if t.readerError then
      let p := processUnits ops fp t.filename n 0 t.units
      match p.err with
      | some e => ⟨p.norm, [(t.filename, p.events, p.yielded)], [], [],
          Termination.crashed e⟩
      | none =>
        let evs := p.events ++ [LogEvent.ioErrorNote, LogEvent.failedOn t.filename]
        let removedHere := if single_out then [] else [t.filename]
        if force then
          let rest := runFiles ops fp single_out force p.norm ts
          ⟨rest.norm, (t.filename, evs ++ [LogEvent.skipWarning], p.yielded) :: rest.files,
            removedHere ++ rest.removed, t.filename :: rest.corrupt, rest.term⟩
        else
          ⟨p.norm, [(t.filename, evs ++ [LogEvent.exiting], p.yielded)],
            removedHere, [], Termination.exited 1⟩
    else
      let fr := withDiagnosticsFile ops fp t.filename n t.units
      match fr.err with
      | some e => ⟨fr.norm, [(t.filename, fr.events, fr.yielded)], [], [],
          Termination.crashed e⟩
      | none =>
        let rest := runFiles ops fp single_out force fr.norm ts
        ⟨rest.norm, (t.filename, fr.events, fr.yielded) :: rest.files,
          rest.removed, rest.corrupt, rest.term⟩

/-- The forced-modes conflict check of `main` (source lines 241-244): when
both `--force-single` and `--paired` are set, the error message is printed
and the program calls `sys.exit(0)`, i.e. it terminates with exit status 0.
Returns the exit status when the program terminates here, `none` otherwise. -/
def forcedModesExit (force_single paired : Bool) : Option Nat :=
  if force_single && paired then some 0 else none

/-- Modelled from the spec: the khmer counting table (`AbundanceOracle`,
spec §6 and glossary), which is not part of this repository's sources.  It
is idealised as an exact k-mer count table: a k-mer size and an association
list from k-mers to observed counts (the probabilistic fixed-size hashing of
the real structure is out of the spec's scope). -/
structure CountingHash where
  k : Nat
  counts : List (List Char × Nat)
deriving DecidableEq

/-- The observed count of one k-mer (zero when never consumed). -/
def getCount (h : CountingHash) (km : List Char) : Nat :=
  (h.counts.lookup km).getD 0

/-- All k-mer windows of a sequence, in order. -/
def kmersOf (k : Nat) (s : List Char) : List (List Char) :=
  (List.range (s.length + 1 - k)).map fun i => (s.drop i).take k

/-- Insert one k-mer occurrence into the association list. -/
def bumpCount (km : List Char) : List (List Char × Nat) → List (List Char × Nat)
  | [] => [(km, 1)]
  | (x, c) :: rest =>
    if x == km then (x, c + 1) :: rest else (x, c) :: bumpCount km rest

/-- Sorted insertion, used to take the median of a count list. -/
def insertSorted (x : Nat) : List Nat → List Nat
  | [] => [x]
  | y :: ys => if x ≤ y then x :: y :: ys else y :: insertSorted x ys

/-- Insertion sort on counts. -/
def sortNat (l : List Nat) : List Nat :=
  l.foldr insertSorted []

/-- Modelled from the spec: the median of a list of counts (glossary
"Median k-mer abundance"), taken as the middle element of the sorted list;
zero for an empty list (never hit: the reader drops records shorter than the
k-mer window). -/
def medianOf (l : List Nat) : Nat :=
  ((sortNat l).get? (l.length / 2)).getD 0

/-- Modelled from the spec: `get_median_count` and `consume` of the khmer
counting table (spec §6: `get_median_count(sequence) -> (median, min, max)`;
`consume(sequence)` increments the count of every k-mer window). -/
def countingOps : OracleOps CountingHash where
  get_median_count h s :=
    let cs := (kmersOf h.k s).map (getCount h)
    (medianOf cs, cs.foldr Nat.min 0, cs.foldr Nat.max 0)
  consume h s :=
    ⟨h.k, (kmersOf h.k s).foldl (fun acc km => bumpCount km acc) h.counts⟩

/-- A single-base record used by the concrete scenarios. -/
def recA : Record := ⟨"read", ['A']⟩

/-- The single-read unit carrying `recA`. -/
def uA : RawUnit := ⟨false, recA, none⟩

/-- An empty counting table with k-mer size 1. -/
def hash0 : CountingHash := ⟨1, []⟩

/-- The table after consuming `recA` once. -/
def hash1 : CountingHash := ⟨1, [(['A'], 1)]⟩

/-- A fresh normalizer over the empty table with cutoff 1 (Scenario C). -/
def norm0 : Normalizer CountingHash := ⟨hash0, 1, 0, 0⟩

/-- Recognizer for periodic progress lines among the log events. -/
def isProgressEv : LogEvent → Bool
  | LogEvent.progress _ _ _ _ => true
  | _ => false

/-- The number of triggering `enumerate` indices in the window
`[s, s + n)`. -/
def trigCount : Nat → Nat → Nat
  | _, 0 => 0
  | s, n + 1 => (if progressTrigger s then 1 else 0) + trigCount (s + 1) n

/-- An oracle whose median query always answers 0, so that every unit is
kept under any positive cutoff; used to drive the pipeline to a triggering
index. -/
def keepAllOps : OracleOps Unit where
  get_median_count _ _ := (0, 0, 0)
  consume h _ := h

/-- Total of the `total`-counter increments contributed by a unit list. -/
def unitsTotal (us : List RawUnit) : Nat :=
  (us.map unitTotalInc).sum

/-- The normalizer state after processing a sequence of files' unit lists,
threading one state through all of them (the single `norm` object of `main`,
source line 282). -/
def filesState (ops : OracleOps O) : Normalizer O → List (List RawUnit) → Normalizer O
  | n, [] => n
  | n, us :: rest => filesState ops (normRun ops n us).1 rest

/-- A file task whose reader completes without fault. -/
def cleanTask (p : String × List RawUnit) : FileTask :=
  ⟨p.1, p.2, false⟩

/-- The per-file observable output of a clean (fault-free, no report stream)
multi-file run: for each file, its name, its log events (progress lines then
the end-of-file summary computed from the cumulative state), and its kept
records. -/
def cleanRunFiles (ops : OracleOps O) :
    Normalizer O → List (String × List RawUnit) →
    List (String × List LogEvent × List Record)
  | _, [] => []
  | n, (f, us) :: rest =>
    (f, (processUnits ops false f n 0 us).events
        ++ [summaryEvent f (normRun ops n us).1.total (normRun ops n us).1.discarded],
      (normRun ops n us).2) :: cleanRunFiles ops (normRun ops n us).1 rest

/-- The progress lines printed while streaming one kept batch whose yield
indices cover the window `[idx, idx + n)`: one line per triggering index,
all showing the same (already updated) counters. -/
def progressEvents (fname : String) (total discarded : Nat) :
    Nat → Nat → List LogEvent
  | _, 0 => []
  | idx, n + 1 =>
    (if progressTrigger idx then
      [LogEvent.progress (total - discarded) total (pct discarded total) fname]
     else [])
      ++ progressEvents fname total discarded (idx + 1) n

/-- First mate of the Scenario B pair. -/
def recP0 : Record := ⟨"pair/1", ['A', 'C']⟩

/-- Second mate of the Scenario B pair. -/
def recP1 : Record := ⟨"pair/2", ['G', 'T']⟩

/-- The Scenario B pair unit. -/
def pairUnit : RawUnit := ⟨true, recP0, some recP1⟩

/-- An oracle assigning median 2 to the first mate's sequence and 50 to any
other sequence (Scenario B: mates with medians 2 and 50). -/
def pairOps : OracleOps Unit where
  get_median_count _ s := (if s = ['A', 'C'] then 2 else 50, 0, 0)
  consume h _ := h

/-- A fresh normalizer with the default cutoff 10 over the Scenario B
oracle's (trivial) state. -/
def pairNorm : Normalizer Unit := ⟨(), 10, 0, 0⟩

/-- C1: a logical unit is kept iff at least one constituent record's median
k-mer abundance, queried on the `N`-to-`A` substituted sequence, is strictly
below the desired-coverage cutoff; a kept unit has every constituent's
substituted sequence consumed into the oracle and every constituent yielded
in original order, while a discarded unit yields nothing and adds its batch
size to `discarded`; in particular a pair whose mates have medians 2 and 50
under cutoff 10 is kept with both mates yielded. -/
theorem c1_unit_keep_rule (O : Type) (ops : OracleOps O) (n : Normalizer O)
    (u : RawUnit) :
    (unitPassed ops n.htable n.desired_coverage u = true ↔
      ∃ r ∈ unitBatch u,
        (ops.get_median_count n.htable (replaceNA r.sequence)).1
          < n.desired_coverage)
    ∧ normStep ops n u =
        (if unitPassed ops n.htable n.desired_coverage u then
          (⟨consumeBatch ops n.htable (unitBatch u), n.desired_coverage,
            n.total + unitTotalInc u, n.discarded⟩, unitBatch u)
         else
          (⟨n.htable, n.desired_coverage, n.total + unitTotalInc u,
            n.discarded + (unitBatch u).length⟩, ([] : List Record)))
    ∧ (normStep pairOps pairNorm pairUnit).2 = [recP0, recP1] := by
  refine ⟨?_, rfl, by decide⟩
  simp [unitPassed, List.any_eq_true]

/-- C2: for every pair unit, either both mates are yielded (in order, with
both substituted sequences consumed into the oracle and `discarded`
unchanged) or neither is (and `discarded` grows by 2); never exactly one. -/
theorem c2_pair_both_or_neither (O : Type) (ops : OracleOps O)
    (n : Normalizer O) (a b : Record) :
    ((normStep ops n ⟨true, a, some b⟩).2 = [a, b]
      ∧ (normStep ops n ⟨true, a, some b⟩).1.htable
          = ops.consume (ops.consume n.htable (replaceNA a.sequence))
              (replaceNA b.sequence)
      ∧ (normStep ops n ⟨true, a, some b⟩).1.discarded = n.discarded)
    ∨ ((normStep ops n ⟨true, a, some b⟩).2 = []
      ∧ (normStep ops n ⟨true, a, some b⟩).1.htable = n.htable
      ∧ (normStep ops n ⟨true, a, some b⟩).1.discarded = n.discarded + 2) := by
  by_cases h : unitPassed ops n.htable n.desired_coverage ⟨true, a, some b⟩
  · left
    simp [normStep, h, unitBatch, consumeBatch]
  · right
    simp [normStep, h, unitBatch]

/-- C6: with both forced-single and forced-paired set, the program detects
the conflict before processing and terminates — but via `sys.exit(0)`, i.e.
with exit status 0, not a non-zero status. -/
theorem c6_forced_modes_exit_status : forcedModesExit true true = some 0 := by
  decide

lemma normStep_total (ops : OracleOps O) (n : Normalizer O) (u : RawUnit) :
    (normStep ops n u).1.total = n.total + unitTotalInc u := by
  unfold normStep
  split <;> rfl

lemma normStep_discarded (ops : OracleOps O) (n : Normalizer O) (u : RawUnit) :
    (normStep ops n u).1.discarded = n.discarded
    ∨ (normStep ops n u).1.discarded = n.discarded + (unitBatch u).length := by
  unfold normStep
  split
  · exact Or.inl rfl
  · exact Or.inr rfl

lemma unitBatch_length_wf (u : RawUnit) (h : u.is_paired = u.read1.isSome) :
    (unitBatch u).length = unitTotalInc u := by
  rcases u with ⟨p, r0, r1⟩
  cases r1 <;> simp_all [unitBatch, unitTotalInc]

lemma normStep_invariant (ops : OracleOps O) (n : Normalizer O) (u : RawUnit)
    (hwf : u.is_paired = u.read1.isSome) (h : n.discarded ≤ n.total) :
    (normStep ops n u).1.discarded ≤ (normStep ops n u).1.total := by
  rcases normStep_discarded ops n u with hd | hd <;>
    rw [hd, normStep_total]
  · omega
  · rw [unitBatch_length_wf u hwf]
    omega

lemma normRun_invariant (ops : OracleOps O) (us : List RawUnit) :
    ∀ n : Normalizer O, (∀ u ∈ us, u.is_paired = u.read1.isSome) →
    n.discarded ≤ n.total →
    (normRun ops n us).1.discarded ≤ (normRun ops n us).1.total := by
  induction us with
  | nil => intro n _ h; exact h
  | cons u us ih =>
    intro n hwf h
    simp only [normRun]
    exact ih _ (fun v hv => hwf v (List.mem_cons_of_mem _ hv))
      (normStep_invariant ops n u (hwf u (List.mem_cons_self _ _)) h)

/-- C4: along any well-formed unit stream, after every processed unit the
run counters satisfy `discarded ≤ total`; each step adds the unit's
constituent-record count to `total` regardless of the decision, and
`discarded` either stays put (kept unit) or grows by exactly the unit's
batch size (discarded unit). -/
theorem c4_counter_invariant (O : Type) (ops : OracleOps O)
    (units : List RawUnit)
    (hwf : ∀ u ∈ units, u.is_paired = u.read1.isSome) (n : Normalizer O)
    (h0 : n.discarded ≤ n.total) :
    (∀ i : Nat, (normRun ops n (units.take i)).1.discarded
        ≤ (normRun ops n (units.take i)).1.total)
    ∧ (∀ (m : Normalizer O) (u : RawUnit),
        (normStep ops m u).1.total = m.total + unitTotalInc u)
    ∧ (∀ (m : Normalizer O) (u : RawUnit),
        (normStep ops m u).1.discarded = m.discarded
        ∨ (normStep ops m u).1.discarded = m.discarded + (unitBatch u).length) :=
  ⟨fun i => normRun_invariant ops (units.take i) n
      (fun u hu => hwf u (List.take_subset i units hu)) h0,
    normStep_total ops, normStep_discarded ops⟩

/-- Witness for C4 at a concrete single-record run. -/
theorem c4_counter_invariant_witness :
    (normRun countingOps norm0 ([uA].take 1)).1.discarded
      ≤ (normRun countingOps norm0 ([uA].take 1)).1.total :=
  (c4_counter_invariant CountingHash countingOps [uA] (by decide) norm0
    (by decide)).1 1

/-- C9 counterexample: in a run whose first file holds one kept record and
whose second file is empty, the second file's end-of-file message is the
done-with-file summary (computed from the cumulative nonzero total), not the
skipped-empty-file notice the claim requires; the counters are nevertheless
unchanged by the empty file. -/
theorem c9_counterexample :
    (runFiles countingOps false false false norm0
      [⟨"f1", [uA], false⟩, ⟨"f2", [], false⟩]).files.get? 1
      = some ("f2", [LogEvent.fileDone "f2" 1 1 (pct 0 1)], [])
    ∧ (runFiles countingOps false false false norm0
      [⟨"f1", [uA], false⟩, ⟨"f2", [], false⟩]).norm
      = ⟨hash1, 1, 1, 0⟩ := by
  decide

/-- C9 amended: a zero-record input file always leaves the normalizer state
unchanged and emits exactly one end-of-file message, which is the
skipped-empty-file notice precisely when the run's cumulative `total` is
still zero (i.e. only when every earlier file was also empty); otherwise it
is the done-with-file summary over the cumulative counters. -/
theorem c9_empty_file_rule (O : Type) (ops : OracleOps O) (fname : String)
    (n : Normalizer O) :
    withDiagnosticsFile ops false fname n []
      = ⟨n, [], [summaryEvent fname n.total n.discarded], none⟩
    ∧ summaryEvent fname n.total n.discarded
      = (if n.total = 0 then LogEvent.fileSkipped fname
         else LogEvent.fileDone fname (n.total - n.discarded) n.total
           (pct n.discarded n.total)) :=
  ⟨rfl, rfl⟩

/-- C10: at end of file with a report stream configured and the cumulative
total still zero, the skipped-empty notice is printed but the end-of-file
report write divides `discarded` by `float(total)` unconditionally and
raises `ZeroDivisionError`, so the file does not complete cleanly. -/
theorem c10_zero_total_report_divzero (O : Type) (ops : OracleOps O) (h : O)
    (cov : Nat) (fname : String) :
    withDiagnosticsFile ops true fname ⟨h, cov, 0, 0⟩ []
      = ⟨⟨h, cov, 0, 0⟩, [], [LogEvent.fileSkipped fname],
         some PyError.zeroDivisionError⟩
    ∧ (∀ d : Nat,
        endOfFileReportWrite 0 d = Except.error PyError.zeroDivisionError) :=
  ⟨rfl, fun _ => rfl⟩

lemma trigCount_add (a : Nat) : ∀ (s b : Nat),
    trigCount s (a + b) = trigCount s a + trigCount (s + a) b := by
  induction a with
  | zero => intro s b; simp [trigCount]
  | succ a ih =>
    intro s b
    have h1 : a + 1 + b = (a + b) + 1 := by omega
    rw [h1]
    simp only [trigCount]
    rw [ih (s + 1) b]
    have h2 : s + 1 + a = s + (a + 1) := by omega
    rw [h2]
    omega

lemma progressEvents_countP (fname : String) (total discarded : Nat) :
    ∀ (n idx : Nat),
    (progressEvents fname total discarded idx n).countP isProgressEv
      = trigCount idx n := by
  intro n
  induction n with
  | zero => intro idx; simp [progressEvents, trigCount]
  | succ n ih =>
    intro idx
    by_cases ht : progressTrigger idx
    · simp [progressEvents, trigCount, ht, ih, isProgressEv]
      omega
    · simp [progressEvents, trigCount, ht, ih, isProgressEv]

lemma emitBatch_false (ops : OracleOps O) (fname : String)
    (total discarded : Nat) (rs : List Record) : ∀ (h : O) (idx : Nat),
    emitBatch ops false fname total discarded h idx rs
      = ⟨consumeBatch ops h rs, idx + rs.length, rs,
         progressEvents fname total discarded idx rs.length, none⟩ := by
  induction rs with
  | nil => intro h idx; simp [emitBatch, consumeBatch, progressEvents]
  | cons r rs ih =>
    intro h idx
    have hcb : consumeBatch ops h (r :: rs)
        = consumeBatch ops (ops.consume h (replaceNA r.sequence)) rs := rfl
    by_cases ht : progressTrigger idx <;>
      simp [emitBatch, ht, ih, hcb, progressEvents,
        Nat.add_assoc, Nat.add_comm, Nat.add_left_comm]

lemma processUnit_false (ops : OracleOps O) (fname : String)
    (n : Normalizer O) (idx : Nat) (u : RawUnit) :
    processUnit ops false fname n idx u
      = ⟨(normStep ops n u).1, idx + (normStep ops n u).2.length,
         (normStep ops n u).2,
         progressEvents fname (n.total + unitTotalInc u) n.discarded idx
           (normStep ops n u).2.length, none⟩ := by
  by_cases hp : unitPassed ops n.htable n.desired_coverage u <;>
    simp [processUnit, normStep, hp, emitBatch_false, progressEvents]

lemma processUnits_false (ops : OracleOps O) (fname : String)
    (us : List RawUnit) : ∀ (n : Normalizer O) (idx : Nat),
    (processUnits ops false fname n idx us).norm = (normRun ops n us).1
    ∧ (processUnits ops false fname n idx us).idx
        = idx + (normRun ops n us).2.length
    ∧ (processUnits ops false fname n idx us).yielded = (normRun ops n us).2
    ∧ (processUnits ops false fname n idx us).err = none
    ∧ (processUnits ops false fname n idx us).events.countP isProgressEv
        = trigCount idx (normRun ops n us).2.length := by
  induction us with
  | nil => intro n idx; simp [processUnits, normRun, trigCount]
  | cons u us ih =>
    intro n idx
    obtain ⟨ih1, ih2, ih3, ih4, ih5⟩ :=
      ih (normStep ops n u).1 (idx + (normStep ops n u).2.length)
    simp only [processUnits, processUnit_false, normRun]
    refine ⟨ih1, ?_, ?_, ih4, ?_⟩
    · rw [ih2, List.length_append]
      omega
    · rw [ih3]
    · rw [List.countP_append, ih5, progressEvents_countP,
        List.length_append, trigCount_add]

lemma withDiagnosticsFile_false (ops : OracleOps O) (fname : String)
    (n : Normalizer O) (us : List RawUnit) :
    withDiagnosticsFile ops false fname n us
      = ⟨(normRun ops n us).1, (normRun ops n us).2,
         (processUnits ops false fname n 0 us).events
           ++ [summaryEvent fname (normRun ops n us).1.total
                 (normRun ops n us).1.discarded], none⟩ := by
  obtain ⟨h1, h2, h3, h4, h5⟩ := processUnits_false ops fname us n 0
  simp [withDiagnosticsFile, h1, h3, h4]

lemma isProgressEv_summaryEvent (fname : String) (total discarded : Nat) :
    isProgressEv (summaryEvent fname total discarded) = false := by
  unfold summaryEvent
  split <;> rfl

/-- C7 amended: the progress line is keyed to the `enumerate` index over the
records the normalizer yields (the kept records), not over processed units:
for a run with no report stream, the number of progress lines emitted for a
file equals the number of indices `i` with `0 < i` and `i % 100000 = 0`
among `[0, Y)`, where `Y` is the number of records kept for that file; in
the two-file Scenario C only the very first record of the run is kept, so no
progress line is emitted at all. -/
theorem c7_progress_by_kept_index (O : Type) (ops : OracleOps O)
    (fname : String) (n : Normalizer O) (units : List RawUnit) :
    (withDiagnosticsFile ops false fname n units).events.countP isProgressEv
      = trigCount 0 (withDiagnosticsFile ops false fname n units).yielded.length
    ∧ (∀ i : Nat, progressTrigger i = true ↔ 0 < i ∧ i % 100000 = 0) := by
  constructor
  · rw [withDiagnosticsFile_false]
    obtain ⟨h1, h2, h3, h4, h5⟩ := processUnits_false ops fname units n 0
    simp [List.countP_append, h5, isProgressEv_summaryEvent,
      List.countP_cons, List.countP_nil]
  · intro i
    simp [progressTrigger]

lemma processUnits_cons_of (ops : OracleOps O) (fp : Bool) (fname : String)
    (n : Normalizer O) (idx : Nat) (u : RawUnit) (us : List RawUnit)
    (p q : PipeResult O)
    (hu : processUnit ops fp fname n idx u = p)
    (hnone : p.err = none)
    (hus : processUnits ops fp fname p.norm p.idx us = q) :
    processUnits ops fp fname n idx (u :: us)
      = ⟨q.norm, q.idx, p.yielded ++ q.yielded, p.events ++ q.events, q.err⟩ := by
  rw [processUnits, hu, hnone, hus]

lemma uA_discard_loop : ∀ (m t d idx : Nat),
    processUnits countingOps false "f1" ⟨hash1, 1, t, d⟩ idx
      (List.replicate m uA)
      = ⟨⟨hash1, 1, t + m, d + m⟩, idx, [], [], none⟩ := by
  intro m
  induction m with
  | zero => intro t d idx; simp [processUnits]
  | succ m ih =>
    intro t d idx
    have hp : unitPassed countingOps hash1 1 uA = false := by decide
    have hb : unitBatch uA = [recA] := rfl
    have hi : unitTotalInc uA = 1 := rfl
    have hstep : processUnit countingOps false "f1" ⟨hash1, 1, t, d⟩ idx uA
        = ⟨⟨hash1, 1, t + 1, d + 1⟩, idx, [], [], none⟩ := by
      simp [processUnit, hp, hb, hi]
    rw [List.replicate_succ]
    rw [processUnits_cons_of countingOps false "f1" ⟨hash1, 1, t, d⟩ idx uA
      (List.replicate m uA) _ _ hstep rfl (ih (t + 1) (d + 1) idx)]
    have h1 : t + 1 + m = t + (m + 1) := by omega
    have h2 : d + 1 + m = d + (m + 1) := by omega
    simp [h1, h2]

/-- C7 counterexample: the first Scenario C file (100001 identical
single-end records of one base at cutoff 1) emits zero progress lines, not
the one line at index 100000 the claim requires: the progress index counts
records the normalizer yields (kept records), not processed units, and in
this file only the very first record is kept. -/
theorem c7_counterexample :
    (withDiagnosticsFile countingOps false "f1" norm0
      (List.replicate 100001 uA)).events.countP isProgressEv = 0 := by
  have h1 : List.replicate 100001 uA = uA :: List.replicate 100000 uA := by
    rw [show (100001 : Nat) = 100000 + 1 from by norm_num, List.replicate_succ]
  have hstep : processUnit countingOps false "f1" norm0 0 uA
      = ⟨⟨hash1, 1, 1, 0⟩, 1, [recA], [], none⟩ := by decide
  have hp : processUnits countingOps false "f1" norm0 0
      (List.replicate 100001 uA)
      = ⟨⟨hash1, 1, 100001, 100000⟩, 1, [recA], [], none⟩ := by
    rw [h1]
    rw [processUnits_cons_of countingOps false "f1" norm0 0 uA
      (List.replicate 100000 uA) _ _ hstep rfl (uA_discard_loop 100000 1 0 1)]
    norm_num
  rw [withDiagnosticsFile, hp]
  simp [summaryEvent, isProgressEv]


lemma uA_keep_step (t d idx : Nat) (hlt : idx < 100000) :
    processUnit keepAllOps true "f" ⟨(), 10, t, d⟩ idx uA
      = ⟨⟨(), 10, t + 1, d⟩, idx + 1, [recA], [], none⟩ := by
  have htrig : progressTrigger idx = false := by
    simp only [progressTrigger, decide_eq_false_iff_not, not_and]
    intro hpos
    rw [Nat.mod_eq_of_lt hlt]
    omega
  have hpass : unitPassed keepAllOps () 10 uA = true := by decide
  have hb : unitBatch uA = [recA] := rfl
  have hi : unitTotalInc uA = 1 := rfl
  simp [processUnit, hpass, hb, hi, emitBatch, htrig]
  rfl

lemma uA_trigger_step (t d : Nat) :
    processUnit keepAllOps true "f" ⟨(), 10, t, d⟩ 100000 uA
      = ⟨⟨(), 10, t + 1, d⟩, 100000, [],
         [LogEvent.progress (t + 1 - d) (t + 1) (pct d (t + 1)) "f"],
         some (PyError.nameError "total")⟩ := by
  have htrig : progressTrigger 100000 = true := by decide
  have hpass : unitPassed keepAllOps () 10 uA = true := by decide
  have hb : unitBatch uA = [recA] := rfl
  have hi : unitTotalInc uA = 1 := rfl
  have hwr : periodicReportWrite = Except.error (PyError.nameError "total") := rfl
  simp [processUnit, hpass, hb, hi, emitBatch, htrig, hwr]

lemma uA_keep_loop_err : ∀ (m idx t d : Nat), idx + m = 100000 →
    (processUnits keepAllOps true "f" ⟨(), 10, t, d⟩ idx
      (List.replicate (m + 1) uA)).err = some (PyError.nameError "total") := by
  intro m
  induction m with
  | zero =>
    intro idx t d heq
    have hidx : idx = 100000 := by omega
    subst hidx
    rw [List.replicate_succ]
    rw [processUnits, uA_trigger_step t d]
  | succ m ih =>
    intro idx t d heq
    rw [List.replicate_succ]
    rw [processUnits, uA_keep_step t d idx (by omega)]
    exact ih (idx + 1) (t + 1) d (by omega)

/-- C8: with a report stream configured and the pipeline reaching its first
periodic diagnostic point (enumerate index 100000), no numeric record is
appended: the periodic report expression references the unbound names
`total` and `discarded`, so the write raises `NameError` instead of
completing, aborting the stream. -/
theorem c8_periodic_report_raises :
    (processUnits keepAllOps true "f" ⟨(), 10, 0, 0⟩ 0
      (List.replicate 100001 uA)).err = some (PyError.nameError "total")
    ∧ periodicReportWrite = Except.error (PyError.nameError "total") := by
  constructor
  · rw [show (100001 : Nat) = 100000 + 1 from by norm_num]
    exact uA_keep_loop_err 100000 0 0 0 (by norm_num)
  · rfl

lemma getLast?_append_singleton (l : List LogEvent) (a : LogEvent) :
    (l ++ [a]).getLast? = some a := by
  rw [List.getLast?_append_cons]
  rfl

lemma normRun_total (ops : OracleOps O) (us : List RawUnit) :
    ∀ n : Normalizer O, (normRun ops n us).1.total = n.total + unitsTotal us := by
  induction us with
  | nil => intro n; simp [normRun, unitsTotal]
  | cons u us ih =>
    intro n
    simp only [normRun]
    rw [ih, normStep_total]
    simp [unitsTotal]
    omega

lemma filesState_total (ops : OracleOps O) (fss : List (List RawUnit)) :
    ∀ n : Normalizer O,
    (filesState ops n fss).total = n.total + (fss.map unitsTotal).sum := by
  induction fss with
  | nil => intro n; simp [filesState]
  | cons us rest ih =>
    intro n
    simp only [filesState]
    rw [ih, normRun_total]
    simp
    omega

lemma runFiles_clean (ops : OracleOps O) (so fo : Bool)
    (fus : List (String × List RawUnit)) : ∀ n : Normalizer O,
    runFiles ops false so fo n (fus.map cleanTask)
      = ⟨filesState ops n (fus.map Prod.snd), cleanRunFiles ops n fus,
         [], [], Termination.completed⟩ := by
  induction fus with
  | nil => intro n; simp [runFiles, filesState, cleanRunFiles]
  | cons p rest ih =>
    intro n
    rcases p with ⟨f, us⟩
    simp only [List.map_cons, cleanTask]
    rw [runFiles, withDiagnosticsFile_false]
    simp only [ih]
    simp [filesState, cleanRunFiles]

lemma cleanRunFiles_get (ops : OracleOps O)
    (fus : List (String × List RawUnit)) :
    ∀ (n : Normalizer O) (i : Nat),
    ((cleanRunFiles ops n fus).get? i).map (fun e => e.2.1.getLast?)
      = (fus.get? i).map (fun p => some (summaryEvent p.1
          (filesState ops n ((fus.map Prod.snd).take (i + 1))).total
          (filesState ops n ((fus.map Prod.snd).take (i + 1))).discarded)) := by
  induction fus with
  | nil => intro n i; simp [cleanRunFiles]
  | cons p rest ih =>
    intro n i
    rcases p with ⟨f, us⟩
    cases i with
    | zero =>
      simp [cleanRunFiles, filesState, getLast?_append_singleton]
    | succ i =>
      simp only [cleanRunFiles, List.map_cons, List.get?_cons_succ,
        List.take_succ_cons]
      rw [ih]
      simp [filesState]

/-- C3: in a clean multi-file run one normalizer state is threaded through
all files, so `total` and `discarded` are never reset between files: the
final state is the fold of all files' units over the single initial state,
the end-of-file summary of file `N` (the last event the file emits) is
computed from the state accumulated over files `1..N`, and that state's
`total` is the initial total plus the record counts of all units of files
`1..N`. -/
theorem c3_cumulative_run_counters (O : Type) (ops : OracleOps O)
    (n : Normalizer O) (fus : List (String × List RawUnit)) :
    (runFiles ops false false false n (fus.map cleanTask)).norm
      = filesState ops n (fus.map Prod.snd)
    ∧ (runFiles ops false false false n (fus.map cleanTask)).term
      = Termination.completed
    ∧ (∀ i : Nat,
        ((runFiles ops false false false n (fus.map cleanTask)).files.get? i).map
            (fun e => e.2.1.getLast?)
          = (fus.get? i).map (fun p => some (summaryEvent p.1
              (filesState ops n ((fus.map Prod.snd).take (i + 1))).total
              (filesState ops n ((fus.map Prod.snd).take (i + 1))).discarded)))
    ∧ (∀ i : Nat,
        (filesState ops n ((fus.map Prod.snd).take (i + 1))).total
          = n.total + (((fus.map Prod.snd).take (i + 1)).map unitsTotal).sum) := by
  rw [runFiles_clean]
  exact ⟨rfl, rfl, fun i => cleanRunFiles_get ops fus n i,
    fun i => filesState_total ops _ n⟩

/-- C5: when the reader raises an I/O or format error while processing a
file, the partially written per-file output is removed unless a single
shared output destination is in use; with fault-tolerant mode off the run
stops immediately with exit status 1 (no corrupt-file log entry), and with
it on the filename is appended to the corrupt-file log, the skip warning is
emitted, and the run proceeds to the remaining files with the normalizer
state (oracle and counters) accumulated so far carried forward. -/
theorem c5_io_error_containment (O : Type) (ops : OracleOps O)
    (single_out force : Bool) (n : Normalizer O) (fname : String)
    (units : List RawUnit) (ts : List FileTask) :
    (runFiles ops false single_out force n (⟨fname, units, true⟩ :: ts)).removed
      = (if single_out then [] else [fname])
        ++ (if force then (runFiles ops false single_out force
            (processUnits ops false fname n 0 units).norm ts).removed else [])
    ∧ (force = false →
        runFiles ops false single_out force n (⟨fname, units, true⟩ :: ts)
          = ⟨(processUnits ops false fname n 0 units).norm,
             [(fname, (processUnits ops false fname n 0 units).events
               ++ [LogEvent.ioErrorNote, LogEvent.failedOn fname,
                   LogEvent.exiting],
               (processUnits ops false fname n 0 units).yielded)],
             (if single_out then [] else [fname]), [],
             Termination.exited 1⟩)
    ∧ (force = true →
        runFiles ops false single_out force n (⟨fname, units, true⟩ :: ts)
          = ⟨(runFiles ops false single_out force
                (processUnits ops false fname n 0 units).norm ts).norm,
             (fname, (processUnits ops false fname n 0 units).events
               ++ [LogEvent.ioErrorNote, LogEvent.failedOn fname,
                   LogEvent.skipWarning],
               (processUnits ops false fname n 0 units).yielded)
               :: (runFiles ops false single_out force
                    (processUnits ops false fname n 0 units).norm ts).files,
             (if single_out then [] else [fname])
               ++ (runFiles ops false single_out force
                    (processUnits ops false fname n 0 units).norm ts).removed,
             fname :: (runFiles ops false single_out force
                    (processUnits ops false fname n 0 units).norm ts).corrupt,
             (runFiles ops false single_out force
                (processUnits ops false fname n 0 units).norm ts).term⟩) := by
  have herr : (processUnits ops false fname n 0 units).err = none :=
    (processUnits_false ops fname units n 0).2.2.2.1
  refine ⟨?_, ?_, ?_⟩
  · rw [runFiles]
    simp only [herr]
    by_cases hf : force <;> simp [hf]
  · intro hf
    subst hf
    rw [runFiles]
    simp only [herr]
    simp [List.append_assoc]
  · intro hf
    subst hf
    rw [runFiles]
    simp only [herr]
    simp [List.append_assoc]

/-- Witness for C5 at a concrete fault-tolerant one-file run. -/
theorem c5_io_error_containment_witness :
    runFiles countingOps false false true norm0 [⟨"f", [], true⟩]
      = ⟨norm0, [("f", [LogEvent.ioErrorNote, LogEvent.failedOn "f",
          LogEvent.skipWarning], [])], ["f"], ["f"], Termination.completed⟩ :=
  (c5_io_error_containment CountingHash countingOps false true norm0
    "f" [] []).2.2 rfl
